import Mathlib

/-!
Verification of the hybrid-filesystem core of pikpak-webdav-proxy.

The Go code is shallowly embedded: each Go function becomes a Lean
function over explicit state, and every external effect (local
filesystem, remote WebDAV client, byte streams) is an oracle passed in
as data.  Functions that in Go issue calls against the local or remote
backend additionally return a trace of the calls they performed, so
that claims such as "no ranged fetch is issued" or "both sides are
attempted" are statable.

Sources embedded:
  - pkg/fs (PikpakProxy): LocalFilePath, Mkdir, RemoveAll, Rename,
    Stat, Readdir, OpenFile
  - pkg/utils/remotefile.go (remoteFile): NewRemoteFile, Read, Seek
  - pkg/utils DirectoryFile: Readdir
  - the Go standard library functions the code calls, at the level of
    path segments: path.Clean, strings.TrimPrefix, filepath.Join
-/

/-- Go `error` values, at the granularity this code distinguishes them:
`os.ErrNotExist`, `os.ErrInvalid`, `io.EOF`, opaque errors, and
`fmt.Errorf("...: %w", cause)` wrapping. -/
inductive GoErr where
  | errNotExist
  | errInvalid
  | eof
  | errMsg (msg : String)
  | wrap (msg : String) (cause : GoErr)
deriving DecidableEq

/-- `os.FileInfo`: the metadata snapshot the remote capability and the
local filesystem return for one path. -/
structure FileInfo where
  name : String
  size : Int
  isDir : Bool
  modTime : Int
  mode : Nat
deriving DecidableEq

/-- A Go slice, keeping the nil / non-nil distinction: `none` is a nil
slice, `some l` a non-nil slice with elements `l`.  The distinction is
observable in `DirectoryFile.Readdir`, whose cache check is
`d.Files == nil`. -/
abbrev GoSlice (α : Type) := Option (List α)

/-- Reading a Go slice's elements; a nil slice ranges as empty. -/
def GoSlice.toList {α : Type} : GoSlice α → List α
  | none => []
  | some l => l

deriving instance DecidableEq for Except

/-- `os.DirEntry` as used by `PikpakProxy.Readdir`: a name plus the
outcome of its `Info()` call. -/
structure GoDirEntry where
  name : String
  info : Except GoErr FileInfo
deriving DecidableEq

/-- A local `*os.File` as far as this code observes it: the path it was
opened at and the outcome of its `Stat()` call. -/
structure LocalFile where
  path : String
  statResult : Except GoErr FileInfo
deriving DecidableEq

/-- The stream returned by `ReadStreamRange`: given the length of the
slice passed to `Read`, it reports how many bytes were produced and an
optional error, exactly the shape of Go's `io.Reader.Read`. -/
abbrev GoReader := Nat → Nat × Option GoErr

/-- The oracle environment: outcomes of every local-filesystem call and
every remote-capability call the embedded code can make. -/
structure Env where
  osStat : String → Except GoErr FileInfo
  osReadDir : String → Except GoErr (List GoDirEntry)
  osMkdirAll : String → Nat → Option GoErr
  osRemoveAll : String → Option GoErr
  osRename : String → String → Option GoErr
  osOpenFile : String → Int → Nat → Except GoErr LocalFile
  remoteStat : String → Except GoErr FileInfo
  remoteReadDir : String → Except GoErr (List FileInfo)
  ReadStreamRange : String → Int → Int → Except GoErr GoReader
  remoteMkdirAll : String → Nat → Option GoErr
  remoteRemoveAll : String → Option GoErr
  remoteRename : String → String → Bool → Option GoErr

/- ### Directory Listing Adapter (pkg/utils DirectoryFile) -/

/-- `utils.DirectoryFile`: target path, metadata captured at open time,
the lazily-populated entry slice (`none` = Go nil = not yet fetched),
and the cursor.  The Go `Proxy` back-reference is represented by
passing the bound lister's outcome to `Readdir` as an argument. -/
structure DirectoryFile where
  Name : String
  Info : FileInfo
  Files : GoSlice FileInfo
  FileIndex : Nat
deriving DecidableEq

/-- The serving tail of `DirectoryFile.Readdir` (everything after the
fetch-if-nil step): slicing out the batch, advancing the cursor, and
deciding the `io.EOF` marker. -/
def DirectoryFile.serve (d : DirectoryFile) (count : Int) :
    (List FileInfo × Option GoErr) × DirectoryFile :=
  let fs := d.Files.toList
  if count ≤ 0 then
    ((fs.drop d.FileIndex, none), { d with FileIndex := fs.length })
  else
    let e := min (d.FileIndex + count.toNat) fs.length
    (((fs.drop d.FileIndex).take (e - d.FileIndex),
      if fs.length ≤ e then some GoErr.eof else none),
     { d with FileIndex := e })

/-- `DirectoryFile.Readdir`: fetch the listing once the cache is nil,
then serve a batch.  Returns the Go result pair `(files, err)`, the
updated adapter, and whether the bound lister was invoked by this
call. -/
def DirectoryFile.Readdir (lister : Except GoErr (GoSlice FileInfo))
    (d : DirectoryFile) (count : Int) :
    (List FileInfo × Option GoErr) × DirectoryFile × Bool :=
  match d.Files with
  | none =>
      match lister with
      | .error e => (([], some e), d, true)
      | .ok files =>
          let r := DirectoryFile.serve { d with Files := files, FileIndex := 0 } count
          (r.1, r.2, true)
  | some _ =>
      let r := DirectoryFile.serve d count
      (r.1, r.2, false)

/-- Runs a sequence of `Readdir` calls against one adapter, counting
how often the bound lister was invoked. -/
def DirectoryFile.runReaddir (lister : Except GoErr (GoSlice FileInfo)) :
    DirectoryFile → List Int → DirectoryFile × Nat
  | d, [] => (d, 0)
  | d, c :: cs =>
      let r := DirectoryFile.Readdir lister d c
      let rest := DirectoryFile.runReaddir lister r.2.1 cs
      (rest.1, (if r.2.2 then 1 else 0) + rest.2)

/- ### Remote File Handle (pkg/utils/remotefile.go) -/

/-- `utils.remoteFile`: the state guarded by the handle lock.  The
`sync.RWMutex` serialises `Read`/`Seek`; with calls serialised, the
handle is an explicit state threaded through the operations. -/
structure remoteFile where
  Filepath : String
  LocalCachePath : String
  Offset : Int
  Size : Int
  IsDir : Bool
  Info : FileInfo
deriving DecidableEq

/-- `utils.NewRemoteFile`: stats the path through the remote capability
(outcome passed as `statResult`) and freezes size and directory flag. -/
def NewRemoteFile (statResult : Except GoErr FileInfo) (filepath : String) :
    Except GoErr remoteFile :=
  match statResult with
  | .error e => .error e
  | .ok stat =>
      .ok { Filepath := filepath, LocalCachePath := "", Offset := 0,
            Size := stat.size, IsDir := stat.isDir, Info := stat }

/-- Events a remote file handle can emit against the remote capability:
a ranged fetch `(path, offset, toRead)` and the closing of the stream
that fetch returned. -/
inductive FetchEv where
  | fetch (path : String) (offset toRead : Int)
  | closeStream
deriving DecidableEq

/-- `remoteFile.Read`: EOF when `offset >= size`; otherwise one ranged
fetch of `toRead = min(len(p), size-offset)` bytes, a single stream
read of `min(int(toRead), len(p))` bytes, stream closed, offset
advanced by the bytes actually read. -/
def remoteFile.Read (env : Env) (f : remoteFile) (plen : Nat) :
    (Nat × Option GoErr) × remoteFile × List FetchEv :=
  if f.IsDir then ((0, some .errInvalid), f, [])
  else if f.Size ≤ f.Offset then ((0, some .eof), f, [])
  else
    let toRead := min (plen : Int) (f.Size - f.Offset)
    match env.ReadStreamRange f.Filepath f.Offset toRead with
    | .error e => ((0, some e), f, [.fetch f.Filepath f.Offset toRead])
    | .ok reader =>
        let readLen := min toRead.toNat plen
        let r := reader readLen
        let f1 := if 0 < r.1 then { f with Offset := f.Offset + (r.1 : Int) } else f
        ((r.1, r.2), f1, [.fetch f.Filepath f.Offset toRead, .closeStream])

/-- `io.SeekStart`. -/
def SeekStart : Int := 0

/-- `io.SeekCurrent`. -/
def SeekCurrent : Int := 1

/-- `io.SeekEnd`. -/
def SeekEnd : Int := 2

/-- The tail of `remoteFile.Seek` after the candidate offset has been
computed: negative candidates rejected, candidates beyond size clamped
to size, the result stored and returned. -/
def remoteFile.seekTo (f : remoteFile) (newOffset : Int) :
    (Int × Option GoErr) × remoteFile :=
  if newOffset < 0 then ((0, some .errInvalid), f)
  else
    let c := if f.Size < newOffset then f.Size else newOffset
    ((c, none), { f with Offset := c })

/-- `remoteFile.Seek`: directory handles and unrecognised whence values
fail with `os.ErrInvalid`; otherwise the candidate offset is computed
from whence and passed to the clamping tail.  No call against the
remote capability is made (empty fetch trace). -/
def remoteFile.Seek (f : remoteFile) (offset : Int) (whence : Int) :
    (Int × Option GoErr) × remoteFile × List FetchEv :=
  if f.IsDir then ((0, some .errInvalid), f, [])
  else if whence = SeekStart then
    let r := f.seekTo offset
    (r.1, r.2, [])
  else if whence = SeekCurrent then
    let r := f.seekTo (f.Offset + offset)
    (r.1, r.2, [])
  else if whence = SeekEnd then
    let r := f.seekTo (f.Size + offset)
    (r.1, r.2, [])
  else ((0, some .errInvalid), f, [])

/- ### Go path functions (path.Clean, strings.TrimPrefix, filepath.Join)
modelled at segment level over `List Char` strings. -/

/-- Splits a string at every slash; `splitOnSlash "" = [""]`, matching
the segment view `path.Clean` iterates over. -/
def splitOnSlash : List Char → List (List Char)
  | [] => [[]]
  | c :: rest =>
      if c = '/' then [] :: splitOnSlash rest
      else
        match splitOnSlash rest with
        | [] => [[c]]
        | s :: ss => (c :: s) :: ss

/-- Joins segments with slashes (inverse of `splitOnSlash`). -/
def joinSegs : List (List Char) → List Char
  | [] => []
  | [s] => s
  | s :: ss => s ++ '/' :: joinSegs ss

/-- One step of `path.Clean`'s element processing for a rooted path:
empty and `.` segments are dropped, `..` pops the last kept segment
(or nothing when at the root), anything else is kept. -/
def rootedStep (acc : List (List Char)) (seg : List Char) : List (List Char) :=
  if seg = [] ∨ seg = ['.'] then acc
  else if seg = ['.', '.'] then acc.dropLast
  else acc ++ [seg]

/-- One step of `path.Clean`'s element processing for a relative path:
as `rootedStep`, except that a `..` that cannot pop (stack empty or all
leading `..`) is kept. -/
def relStep (acc : List (List Char)) (seg : List Char) : List (List Char) :=
  if seg = [] ∨ seg = ['.'] then acc
  else if seg = ['.', '.'] then
    if acc = [] ∨ acc.getLast? = some ['.', '.'] then acc ++ [seg]
    else acc.dropLast
  else acc ++ [seg]

/-- Go `path.Clean`, segment-level: shortest lexical equivalent of the
path, `"."` for an empty result, rooted results keep their leading
slash. -/
def goPathClean (s : List Char) : List Char :=
  if s = [] then ['.']
  else if s.head? = some '/' then
    '/' :: joinSegs (List.foldl rootedStep [] (splitOnSlash s))
  else
    let st := List.foldl relStep [] (splitOnSlash s)
    if st = [] then ['.'] else joinSegs st

/-- Go `strings.TrimPrefix`. -/
def goTrimPrefixOf (s pre : List Char) : List Char :=
  if pre.isPrefixOf s then s.drop pre.length else s

/-- Go `filepath.Join` on two elements (Unix): empty elements skipped,
the rest joined with a slash and cleaned. -/
def goFilepathJoin (a b : List Char) : List Char :=
  if a ≠ [] then goPathClean (a ++ '/' :: b)
  else if b ≠ [] then goPathClean b
  else []

/- ### Hybrid Filesystem (pkg/fs PikpakProxy) -/

/-- `fs.PikpakProxy`: the cache root.  The logger is dropped and the
remote client is the `Env` oracle. -/
structure PikpakProxy where
  localPath : String

/-- `PikpakProxy.LocalFilePath`:
`filepath.Join(p.localPath, strings.TrimPrefix(path.Clean(name), "/"))`. -/
def PikpakProxy.LocalFilePath (p : PikpakProxy) (name : String) : String :=
  String.mk (goFilepathJoin p.localPath.data
    (goTrimPrefixOf (goPathClean name.data) ['/']))

/-- Calls the embedded code can make against the local filesystem and
the remote capability (besides ranged fetches, which use `FetchEv`). -/
inductive CallEv where
  | osMkdirAll (path : String) (perm : Nat)
  | remoteMkdirAll (path : String) (perm : Nat)
  | osRemoveAll (path : String)
  | remoteRemoveAll (path : String)
  | osRename (oldPath newPath : String)
  | remoteRename (oldName newName : String) (overwrite : Bool)
  | osStatCall (path : String)
  | remoteStatCall (path : String)
deriving DecidableEq

/-- `PikpakProxy.Mkdir`: local `os.MkdirAll` and remote `MkdirAll`
both attempted unconditionally; error only when both fail, wrapping
the local cause. -/
def PikpakProxy.Mkdir (p : PikpakProxy) (env : Env) (name : String) (perm : Nat) :
    Option GoErr × List CallEv :=
  let localPath := p.LocalFilePath name
  let localErr := env.osMkdirAll localPath perm
  let remoteErr := env.remoteMkdirAll name perm
  (match localErr, remoteErr with
   | some le, some _ => some (.wrap "failed to create local and remote directories" le)
   | _, _ => none,
   [.osMkdirAll localPath perm, .remoteMkdirAll name perm])

/-- `PikpakProxy.RemoveAll`: same dual-write shape as `Mkdir` (the Go
condition tests the remote error first, with the same meaning). -/
def PikpakProxy.RemoveAll (p : PikpakProxy) (env : Env) (name : String) :
    Option GoErr × List CallEv :=
  let localPath := p.LocalFilePath name
  let errLocal := env.osRemoveAll localPath
  let errRemote := env.remoteRemoveAll name
  (match errRemote, errLocal with
   | some _, some le => some (.wrap "failed to remove local and remote files" le)
   | _, _ => none,
   [.osRemoveAll localPath, .remoteRemoveAll name])

/-- `PikpakProxy.Rename`: dual-write rename; the remote side is always
called with `overwrite = true`. -/
def PikpakProxy.Rename (p : PikpakProxy) (env : Env) (oldName newName : String) :
    Option GoErr × List CallEv :=
  let oldPath := p.LocalFilePath oldName
  let newPath := p.LocalFilePath newName
  let localErr := env.osRename oldPath newPath
  let remoteErr := env.remoteRename oldName newName true
  (match localErr, remoteErr with
   | some le, some _ => some (.wrap "failed to rename local and remote files" le)
   | _, _ => none,
   [.osRename oldPath newPath, .remoteRename oldName newName true])

/-- `PikpakProxy.Stat`: local stat wins unless it failed or the path is
the root `"/"`; otherwise the remote result is returned verbatim. -/
def PikpakProxy.Stat (p : PikpakProxy) (env : Env) (name : String) :
    Except GoErr FileInfo × List CallEv :=
  let localPath := p.LocalFilePath name
  match env.osStat localPath with
  | .ok info =>
      if name ≠ "/" then (.ok info, [.osStatCall localPath])
      else (env.remoteStat name, [.osStatCall localPath, .remoteStatCall name])
  | .error _ => (env.remoteStat name, [.osStatCall localPath, .remoteStatCall name])

/-- The local entries `PikpakProxy.Readdir` keeps: for each listed
entry whose `Info()` succeeded, that info, in listing order. -/
def localInfos (les : List GoDirEntry) : List FileInfo :=
  les.filterMap (fun f => f.info.toOption)

/-- The `localNames` set `PikpakProxy.Readdir` builds: names of the
listed entries whose `Info()` succeeded. -/
def localNames (les : List GoDirEntry) : List String :=
  (les.filter (fun f => f.info.toOption.isSome)).map (fun f => f.name)

/-- The remote-merge tail of `PikpakProxy.Readdir`: a failed remote
listing is ignored; otherwise remote entries whose name is not among
the kept local names are appended. -/
def mergeRemote (env : Env) (name : String) (les : List GoDirEntry) :
    List FileInfo :=
  match env.remoteReadDir name with
  | .error _ => localInfos les
  | .ok rfs => localInfos les ++ rfs.filter (fun f => !(localNames les).contains f.name)

/-- `PikpakProxy.Readdir`: a local listing error other than
`os.ErrNotExist` is fatal; `os.ErrNotExist` proceeds with an empty
local listing; then the remote merge. -/
def PikpakProxy.Readdir (p : PikpakProxy) (env : Env) (name : String) :
    Except GoErr (List FileInfo) :=
  let localPath := p.LocalFilePath name
  match env.osReadDir localPath with
  | .error e =>
      if e = .errNotExist then .ok (mergeRemote env name [])
      else .error e
  | .ok les => .ok (mergeRemote env name les)

/-- The three kinds of handle `PikpakProxy.OpenFile` can return. -/
inductive Handle where
  | localFile (f : LocalFile)
  | dir (d : DirectoryFile)
  | remote (r : remoteFile)
deriving DecidableEq

/-- `os.O_RDONLY` (zero on every Go platform). -/
def O_RDONLY : Int := 0

/-- `PikpakProxy.OpenFile`: local open first (directories become a
`DirectoryFile` bound to the proxy, regular files are returned as-is);
on local failure, `flag&O_RDONLY != 0 || flag == 0` opens a remote
handle, anything else fails with `os.ErrNotExist`. -/
def PikpakProxy.OpenFile (p : PikpakProxy) (env : Env) (name : String)
    (flag : Int) (perm : Nat) : Except GoErr Handle × List CallEv :=
  let localPath := p.LocalFilePath name
  match env.osOpenFile localPath flag perm with
  | .ok f =>
      match f.statResult with
      | .ok info =>
          if info.isDir then
            (.ok (.dir { Name := name, Info := info, Files := none, FileIndex := 0 }), [])
          else (.ok (.localFile f), [])
      | .error _ => (.ok (.localFile f), [])
  | .error _ =>
      if Int.land flag O_RDONLY ≠ 0 ∨ flag = 0 then
        match NewRemoteFile (env.remoteStat name) name with
        | .error e => (.error e, [.remoteStatCall name])
        | .ok r => (.ok (.remote r), [.remoteStatCall name])
      else (.error .errNotExist, [])

/-- A clean path segment: nonempty and neither `"."` nor `".."`.  The
stack `path.Clean` keeps for a rooted path holds only such segments. -/
abbrev goodSeg (s : List Char) : Prop := s ≠ [] ∧ s ≠ ['.'] ∧ s ≠ ['.', '.']

/-- Char-level body of `PikpakProxy.LocalFilePath`. -/
def localFilePath (root name : List Char) : List Char :=
  goFilepathJoin root (goTrimPrefixOf (goPathClean name) ['/'])

/- ### Concrete sample data used by witnesses and counterexamples -/

/-- Sample file metadata `a.txt`. -/
def fiA : FileInfo := ⟨"a.txt", 3, false, 0, 420⟩

/-- Sample file metadata `b.txt`. -/
def fiB : FileInfo := ⟨"b.txt", 5, false, 0, 420⟩

/-- Sample file metadata `c.txt`. -/
def fiC : FileInfo := ⟨"c.txt", 1, false, 0, 420⟩

/-- Sample directory metadata. -/
def fiDir : FileInfo := ⟨"d", 0, true, 0, 493⟩

/-- Sample local directory entry for `a.txt` with successful `Info()`. -/
def entA : GoDirEntry := ⟨"a.txt", .ok fiA⟩

/-- A freshly opened directory adapter (nil cache, cursor 0). -/
def dfFresh : DirectoryFile := ⟨"/d", fiDir, none, 0⟩

/-- An adapter whose one-entry listing is cached and fully consumed. -/
def dfExhausted : DirectoryFile := ⟨"/d", fiDir, some [fiA], 1⟩

/-- A stream that produces `min k 3` bytes for a `k`-byte slice. -/
def reader3 : GoReader := fun k => (min k 3, none)

/-- Base oracle: every local and remote call fails with an opaque
error, every stream is `reader3`. -/
def baseEnv : Env where
  osStat := fun _ => .error (.errMsg "local stat failed")
  osReadDir := fun _ => .error .errNotExist
  osMkdirAll := fun _ _ => some (.errMsg "local mkdir failed")
  osRemoveAll := fun _ => some (.errMsg "local remove failed")
  osRename := fun _ _ => some (.errMsg "local rename failed")
  osOpenFile := fun _ _ _ => .error .errNotExist
  remoteStat := fun _ => .error (.errMsg "remote stat failed")
  remoteReadDir := fun _ => .error (.errMsg "remote readdir failed")
  ReadStreamRange := fun _ _ _ => .ok reader3
  remoteMkdirAll := fun _ _ => some (.errMsg "remote mkdir failed")
  remoteRemoveAll := fun _ => some (.errMsg "remote remove failed")
  remoteRename := fun _ _ _ => some (.errMsg "remote rename failed")

/-- Sample proxy rooted at `/cache`. -/
def proxy0 : PikpakProxy := ⟨"/cache"⟩

/-- Oracle for the merge example: local listing `{a.txt}`, remote
listing `{a.txt, b.txt}`. -/
def envMerge : Env :=
  { baseEnv with
    osReadDir := fun _ => .ok [entA]
    remoteReadDir := fun _ => .ok [fiA, fiB] }

/-- Oracle where the local stat of any path succeeds with `fiA`. -/
def envLocalStat : Env := { baseEnv with osStat := fun _ => .ok fiA }

/-- Oracle where the remote stat of any path succeeds with `fiB`. -/
def envRemoteStat : Env := { baseEnv with remoteStat := fun _ => .ok fiB }

/-- A remote file handle of size 10 at offset 4. -/
def rf10 : remoteFile :=
  { Filepath := "/f.bin", LocalCachePath := "", Offset := 4, Size := 10,
    IsDir := false, Info := ⟨"f.bin", 10, false, 0, 420⟩ }

/-- An adapter with the three-entry listing already cached, cursor 0. -/
def dfThree : DirectoryFile := ⟨"/d", fiDir, some [fiA, fiB, fiC], 0⟩

/- ## Theorems -/

/-- Claim C3: for every path whose derived local path stats
successfully and which is not the root path, `Stat` returns the local
metadata without invoking the remote capability; for the root path and
for local stat failures it delegates to the remote capability and
returns its result or error verbatim. -/
theorem stat_local_first (p : PikpakProxy) (env : Env) (name : String) :
    (∀ info, env.osStat (p.LocalFilePath name) = .ok info → name ≠ "/" →
        p.Stat env name = (.ok info, [.osStatCall (p.LocalFilePath name)])) ∧
    (name = "/" →
        (p.Stat env name).1 = env.remoteStat name ∧
        CallEv.remoteStatCall name ∈ (p.Stat env name).2) ∧
    (∀ e, env.osStat (p.LocalFilePath name) = .error e →
        (p.Stat env name).1 = env.remoteStat name ∧
        CallEv.remoteStatCall name ∈ (p.Stat env name).2) := by
  unfold PikpakProxy.Stat
  refine ⟨?_, ?_, ?_⟩
  · intro info h hne
    simp [h, hne]
  · intro h
    subst h
    cases hs : env.osStat (p.LocalFilePath "/") <;> simp [hs]
  · intro e h
    simp [h]

/-- Witness for C3: a path present locally is answered from the local
stat alone. -/
theorem stat_local_first_witness :
    envLocalStat.osStat (proxy0.LocalFilePath "/x") = .ok fiA ∧
    proxy0.Stat envLocalStat "/x" =
      (.ok fiA, [.osStatCall (proxy0.LocalFilePath "/x")]) :=
  ⟨rfl, (stat_local_first proxy0 envLocalStat "/x").1 fiA rfl (by decide)⟩

/-- Claim C2: `Mkdir`, `RemoveAll` and `Rename` each perform the local
and the remote operation unconditionally (the call trace always holds
both calls), succeed when at least one side succeeds, and fail only
when both sides fail, wrapping the local-side cause. -/
theorem dual_write_policy (p : PikpakProxy) (env : Env) (name : String)
    (perm : Nat) (oldName newName : String) :
    ((p.Mkdir env name perm).2 =
        [.osMkdirAll (p.LocalFilePath name) perm, .remoteMkdirAll name perm]) ∧
    ((p.Mkdir env name perm).1 = none ↔
        (env.osMkdirAll (p.LocalFilePath name) perm = none ∨
         env.remoteMkdirAll name perm = none)) ∧
    (∀ le re, env.osMkdirAll (p.LocalFilePath name) perm = some le →
        env.remoteMkdirAll name perm = some re →
        (p.Mkdir env name perm).1 =
          some (.wrap "failed to create local and remote directories" le)) ∧
    ((p.RemoveAll env name).2 =
        [.osRemoveAll (p.LocalFilePath name), .remoteRemoveAll name]) ∧
    ((p.RemoveAll env name).1 = none ↔
        (env.osRemoveAll (p.LocalFilePath name) = none ∨
         env.remoteRemoveAll name = none)) ∧
    (∀ le re, env.osRemoveAll (p.LocalFilePath name) = some le →
        env.remoteRemoveAll name = some re →
        (p.RemoveAll env name).1 =
          some (.wrap "failed to remove local and remote files" le)) ∧
    ((p.Rename env oldName newName).2 =
        [.osRename (p.LocalFilePath oldName) (p.LocalFilePath newName),
         .remoteRename oldName newName true]) ∧
    ((p.Rename env oldName newName).1 = none ↔
        (env.osRename (p.LocalFilePath oldName) (p.LocalFilePath newName) = none ∨
         env.remoteRename oldName newName true = none)) ∧
    (∀ le re,
        env.osRename (p.LocalFilePath oldName) (p.LocalFilePath newName) = some le →
        env.remoteRename oldName newName true = some re →
        (p.Rename env oldName newName).1 =
          some (.wrap "failed to rename local and remote files" le)) := by
  refine ⟨rfl, ?_, ?_, rfl, ?_, ?_, rfl, ?_, ?_⟩
  · cases hl : env.osMkdirAll (p.LocalFilePath name) perm <;>
      cases hr : env.remoteMkdirAll name perm <;>
      simp [PikpakProxy.Mkdir, hl, hr]
  · intro le re hl hr
    simp [PikpakProxy.Mkdir, hl, hr]
  · cases hl : env.osRemoveAll (p.LocalFilePath name) <;>
      cases hr : env.remoteRemoveAll name <;>
      simp [PikpakProxy.RemoveAll, hl, hr]
  · intro le re hl hr
    simp [PikpakProxy.RemoveAll, hl, hr]
  · cases hl : env.osRename (p.LocalFilePath oldName) (p.LocalFilePath newName) <;>
      cases hr : env.remoteRename oldName newName true <;>
      simp [PikpakProxy.Rename, hl, hr]
  · intro le re hl hr
    simp [PikpakProxy.Rename, hl, hr]

/-- Witness for C2: with both sides failing, `Mkdir` fails and wraps
the local cause. -/
theorem dual_write_policy_witness :
    baseEnv.osMkdirAll (proxy0.LocalFilePath "/d") 493 =
      some (.errMsg "local mkdir failed") ∧
    (proxy0.Mkdir baseEnv "/d" 493).1 =
      some (.wrap "failed to create local and remote directories"
        (.errMsg "local mkdir failed")) :=
  ⟨rfl, (dual_write_policy proxy0 baseEnv "/d" 493 "/a" "/b").2.2.1 _ _ rfl rfl⟩

/-- Claim C5: `Seek` rejects directories, unrecognised whence values
and negative candidate offsets with `os.ErrInvalid` and an unchanged
offset; nonnegative candidates succeed, clamped to the size; the new
offset is stored and returned; no ranged fetch is issued. -/
theorem seek_policy (f : remoteFile) (offset whence : Int) :
    ((f.Seek offset whence).2.2 = []) ∧
    (f.IsDir = true → f.Seek offset whence = ((0, some .errInvalid), f, [])) ∧
    (f.IsDir = false → whence ≠ SeekStart → whence ≠ SeekCurrent → whence ≠ SeekEnd →
        f.Seek offset whence = ((0, some .errInvalid), f, [])) ∧
    (f.IsDir = false → ∀ cand,
        ((whence = SeekStart ∧ cand = offset) ∨
         (whence = SeekCurrent ∧ cand = f.Offset + offset) ∨
         (whence = SeekEnd ∧ cand = f.Size + offset)) →
        (cand < 0 → f.Seek offset whence = ((0, some .errInvalid), f, [])) ∧
        (0 ≤ cand → f.Seek offset whence =
            ((min cand f.Size, none), { f with Offset := min cand f.Size }, []))) := by
  have hclamp : ∀ cand : Int, (if f.Size < cand then f.Size else cand) = min cand f.Size := by
    intro cand
    rw [min_def]
    split_ifs <;> omega
  refine ⟨?_, ?_, ?_, ?_⟩
  · unfold remoteFile.Seek remoteFile.seekTo
    split_ifs <;> rfl
  · intro h
    simp [remoteFile.Seek, h]
  · intro h h0 h1 h2
    simp [remoteFile.Seek, h, h0, h1, h2]
  · intro h cand hc
    constructor
    · intro hneg
      rcases hc with ⟨hw, hcand⟩ | ⟨hw, hcand⟩ | ⟨hw, hcand⟩ <;>
        simp [remoteFile.Seek, remoteFile.seekTo, h, hw, ← hcand, hneg,
          SeekStart, SeekCurrent, SeekEnd]
    · intro hpos
      rcases hc with ⟨hw, hcand⟩ | ⟨hw, hcand⟩ | ⟨hw, hcand⟩ <;>
        simp [remoteFile.Seek, remoteFile.seekTo, h, hw, ← hcand, not_lt.mpr hpos,
          SeekStart, SeekCurrent, SeekEnd, hclamp]

/-- Witness for C5: `Seek(size+100, start)` on a size-10 handle yields
exactly 10. -/
theorem seek_policy_witness :
    rf10.IsDir = false ∧ (0 : Int) ≤ 110 ∧
    rf10.Seek 110 SeekStart = ((10, none), { rf10 with Offset := 10 }, []) :=
  ⟨rfl, by decide, by
    have h := ((seek_policy rf10 110 SeekStart).2.2.2 rfl 110 (Or.inl ⟨rfl, rfl⟩)).2 (by decide)
    rw [h]; decide⟩

/-- `serve` only moves the cursor; the cached slice is untouched. -/
theorem DirectoryFile.serve_Files (d : DirectoryFile) (count : Int) :
    (DirectoryFile.serve d count).2.Files = d.Files := by
  unfold DirectoryFile.serve
  by_cases h : count ≤ 0 <;> simp [h]

/-- With a non-nil cache, `Readdir` serves from the cache and does not
invoke the lister. -/
theorem DirectoryFile.Readdir_cached (lister : Except GoErr (GoSlice FileInfo))
    (d : DirectoryFile) (count : Int) (x : List FileInfo) (h : d.Files = some x) :
    DirectoryFile.Readdir lister d count =
      ((DirectoryFile.serve d count).1, (DirectoryFile.serve d count).2, false) := by
  unfold DirectoryFile.Readdir
  rw [h]

/-- With a non-nil cache, no call in any further sequence fetches. -/
theorem DirectoryFile.runReaddir_cached (lister : Except GoErr (GoSlice FileInfo))
    (counts : List Int) :
    ∀ (d : DirectoryFile) (x : List FileInfo), d.Files = some x →
      (DirectoryFile.runReaddir lister d counts).2 = 0 := by
  induction counts with
  | nil => intro d x h; rfl
  | cons c cs ih =>
      intro d x h
      unfold DirectoryFile.runReaddir
      rw [DirectoryFile.Readdir_cached lister d c x h]
      have hf : (DirectoryFile.serve d c).2.Files = some x := by
        rw [DirectoryFile.serve_Files, h]
      simp [ih (DirectoryFile.serve d c).2 x hf]

/-- Claim C7 counterexample: on an exhausted adapter (one cached entry,
cursor 1), `Readdir 0` returns an empty batch with **no** end-of-stream
marker, where the claim requires the marker for every count. -/
theorem readdir_pagination_counterexample :
    dfExhausted.Files = some [fiA] ∧ dfExhausted.FileIndex = 1 ∧
    (DirectoryFile.Readdir (.ok (some [fiA])) dfExhausted 0).1 = ([], none) ∧
    (DirectoryFile.Readdir (.ok (some [fiA])) dfExhausted 0).1.2 ≠ some GoErr.eof :=
  ⟨rfl, rfl, by decide, by decide⟩

/-- Claim C7 as amended: with a cached `n`-entry sequence and cursor
`i ≤ n`, `Readdir count` with `count ≤ 0` returns entries `i..n-1`
without a marker and sets the cursor to `n`; with `count > 0` it
returns entries `i..min(i+count,n)-1`, advances the cursor to
`min(i+count,n)`, and attaches the end-of-stream marker exactly when
the new cursor equals `n`; after exhaustion, calls with `count > 0`
return an empty batch with the marker, while calls with `count ≤ 0`
return an empty batch without it. -/
theorem readdir_pagination_amended (lister : Except GoErr (GoSlice FileInfo))
    (d : DirectoryFile) (l : List FileInfo) (count : Int)
    (hf : d.Files = some l) (hle : d.FileIndex ≤ l.length) :
    (count ≤ 0 → DirectoryFile.Readdir lister d count =
        ((l.drop d.FileIndex, none), { d with FileIndex := l.length }, false)) ∧
    (0 < count →
        DirectoryFile.Readdir lister d count =
          (((l.drop d.FileIndex).take (min (d.FileIndex + count.toNat) l.length - d.FileIndex),
            if min (d.FileIndex + count.toNat) l.length = l.length
            then some GoErr.eof else none),
           { d with FileIndex := min (d.FileIndex + count.toNat) l.length }, false) ∧
        ((DirectoryFile.Readdir lister d count).1.2 = some GoErr.eof ↔
          (DirectoryFile.Readdir lister d count).2.1.FileIndex = l.length)) ∧
    (d.FileIndex = l.length →
        (0 < count → DirectoryFile.Readdir lister d count = (([], some GoErr.eof), d, false)) ∧
        (count ≤ 0 → DirectoryFile.Readdir lister d count = (([], none), d, false))) := by
  have hserve := DirectoryFile.Readdir_cached lister d count l hf
  have htol : d.Files.toList = l := by rw [hf]; rfl
  have hminle : min (d.FileIndex + count.toNat) l.length ≤ l.length :=
    Nat.min_le_right _ _
  have hmarker : (if l.length ≤ min (d.FileIndex + count.toNat) l.length
      then some GoErr.eof else none) =
      (if min (d.FileIndex + count.toNat) l.length = l.length
      then some GoErr.eof else none) := by
    by_cases he : min (d.FileIndex + count.toNat) l.length = l.length
    · rw [if_pos (le_of_eq he.symm), if_pos he]
    · rw [if_neg (fun hle => he (Nat.le_antisymm hminle hle)), if_neg he]
  refine ⟨?_, ?_, ?_⟩
  · intro hc
    rw [hserve]
    unfold DirectoryFile.serve
    simp [htol, hc]
  · intro hc
    have hc' : ¬ count ≤ 0 := by omega
    constructor
    · rw [hserve]
      unfold DirectoryFile.serve
      simp only [htol, if_neg hc']
      rw [hmarker]
    · rw [hserve]
      unfold DirectoryFile.serve
      simp only [htol, if_neg hc']
      rw [hmarker]
      constructor
      · intro h
        by_cases he : min (d.FileIndex + count.toNat) l.length = l.length
        · simpa using he
        · rw [if_neg he] at h; cases h
      · intro h
        simp only at h
        rw [if_pos h]
  · intro hexh
    have hd : { d with FileIndex := l.length } = d := by
      cases d
      simp_all
    constructor
    · intro hc
      have hc' : ¬ count ≤ 0 := by omega
      have hmin : min (d.FileIndex + count.toNat) l.length = l.length := by omega
      rw [hserve]
      unfold DirectoryFile.serve
      simp only [htol, if_neg hc', hmin]
      rw [hexh]
      simp [hd]
    · intro hc
      rw [hserve]
      unfold DirectoryFile.serve
      simp only [htol, if_pos hc]
      rw [hexh]
      simp [hd]

/-- Witness for amended C7: the spec's three-entry example, first call
`Readdir 2`: two entries, no marker, cursor 2. -/
theorem readdir_pagination_amended_witness :
    dfThree.Files = some [fiA, fiB, fiC] ∧ dfThree.FileIndex ≤ 3 ∧
    DirectoryFile.Readdir (.ok (some [fiA, fiB, fiC])) dfThree 2 =
      (([fiA, fiB], none), { dfThree with FileIndex := 2 }, false) :=
  ⟨rfl, by decide, by
    have h := ((readdir_pagination_amended (.ok (some [fiA, fiB, fiC])) dfThree
      [fiA, fiB, fiC] 2 rfl (by decide)).2.1 (by decide)).1
    rw [h]; decide⟩

/-- Claim C8 counterexample: a bound lister returning a nil (empty)
listing is invoked by **both** of two consecutive `Readdir` calls —
the nil cache is indistinguishable from "not yet fetched". -/
theorem readdir_fetch_once_counterexample :
    dfFresh.Files = none ∧
    (DirectoryFile.runReaddir (.ok none) dfFresh [1, 1]).2 = 2 ∧
    ¬ (DirectoryFile.runReaddir (.ok none) dfFresh [1, 1]).2 ≤ 1 :=
  ⟨rfl, by decide, by decide⟩

/-- Claim C8 as amended: when the bound lister returns a non-nil
listing, a fresh adapter invokes it exactly once across any sequence
of `Readdir` calls (and not at all when no call is made); only a nil
listing (or an error) leaves the cache nil and causes refetching. -/
theorem readdir_fetch_once_amended (name : String) (fi : FileInfo)
    (l : List FileInfo) (counts : List Int) :
    ((DirectoryFile.runReaddir (.ok (some l)) ⟨name, fi, none, 0⟩ counts).2 ≤ 1) ∧
    (counts ≠ [] →
      (DirectoryFile.runReaddir (.ok (some l)) ⟨name, fi, none, 0⟩ counts).2 = 1) := by
  cases counts with
  | nil => exact ⟨Nat.zero_le 1, fun h => absurd rfl h⟩
  | cons c cs =>
      have hstep :
          DirectoryFile.Readdir (.ok (some l)) ⟨name, fi, none, 0⟩ c =
            ((DirectoryFile.serve ⟨name, fi, some l, 0⟩ c).1,
             (DirectoryFile.serve ⟨name, fi, some l, 0⟩ c).2, true) := by
        unfold DirectoryFile.Readdir
        rfl
      have hcache : (DirectoryFile.serve ⟨name, fi, some l, 0⟩ c).2.Files = some l := by
        rw [DirectoryFile.serve_Files]
      have hrest := DirectoryFile.runReaddir_cached (.ok (some l)) cs
        (DirectoryFile.serve ⟨name, fi, some l, 0⟩ c).2 l hcache
      constructor
      · unfold DirectoryFile.runReaddir
        rw [hstep]
        simp [hrest]
      · intro _
        unfold DirectoryFile.runReaddir
        rw [hstep]
        simp [hrest]

/-- Witness for amended C8: one entry, two calls, exactly one fetch. -/
theorem readdir_fetch_once_amended_witness :
    ([2, 2] : List Int) ≠ [] ∧
    (DirectoryFile.runReaddir (.ok (some [fiA])) ⟨"/d", fiDir, none, 0⟩ [2, 2]).2 = 1 :=
  ⟨by decide, (readdir_fetch_once_amended "/d" fiDir [fiA] [2, 2]).2 (by decide)⟩

/-- Claim C1: `Readdir` returns the kept local entries first, followed
by exactly the remote entries whose names are not among the kept local
names (in remote order, duplicates dropped); a failed remote listing
still yields success with the local-only entries.  A locally missing
directory counts as an empty local listing. -/
theorem readdir_merge (p : PikpakProxy) (env : Env) (name : String)
    (les : List GoDirEntry)
    (h : env.osReadDir (p.LocalFilePath name) = .ok les ∨
         (env.osReadDir (p.LocalFilePath name) = .error .errNotExist ∧ les = [])) :
    (∀ rfs, env.remoteReadDir name = .ok rfs →
        p.Readdir env name =
          .ok (localInfos les ++
            rfs.filter (fun f => !(localNames les).contains f.name)) ∧
        ∀ g ∈ rfs.filter (fun f => !(localNames les).contains f.name),
          (localNames les).contains g.name = false) ∧
    (∀ e, env.remoteReadDir name = .error e →
        p.Readdir env name = .ok (localInfos les)) := by
  have hbody : p.Readdir env name = .ok (mergeRemote env name les) := by
    rcases h with h | ⟨h, hles⟩
    · unfold PikpakProxy.Readdir
      simp only [h]
    · subst hles
      unfold PikpakProxy.Readdir
      simp only [h]
      simp
  refine ⟨?_, ?_⟩
  · intro rfs hr
    constructor
    · rw [hbody]
      unfold mergeRemote
      rw [hr]
    · intro g hg
      have hm := List.mem_filter.1 hg
      simpa using hm.2
  · intro e hr
    rw [hbody]
    unfold mergeRemote
    rw [hr]

/-- Witness for C1: local `{a.txt}`, remote `{a.txt, b.txt}` merge to
exactly `{a.txt (local), b.txt (remote)}`. -/
theorem readdir_merge_witness :
    envMerge.osReadDir (proxy0.LocalFilePath "/dir") = .ok [entA] ∧
    proxy0.Readdir envMerge "/dir" = .ok [fiA, fiB] :=
  ⟨rfl, by
    have h := ((readdir_merge proxy0 envMerge "/dir" [entA] (Or.inl rfl)).1
      [fiA, fiB] rfl).1
    rw [h]
    decide⟩

/-- Claim C4: on a non-directory handle, `Read` signals end-of-stream
with no fetch when `offset ≥ size`; otherwise it issues exactly one
ranged fetch `(path, offset, min(len(buffer), size-offset))`, closes
the stream, advances the offset by the bytes actually read and returns
that count; a fetch error is propagated unchanged with zero bytes and
an unchanged offset; the bytes read never exceed
`min(toRead, len(buffer))` when the stream honours the reader
contract. -/
theorem read_policy (env : Env) (f : remoteFile) (plen : Nat)
    (hdir : f.IsDir = false) :
    (f.Size ≤ f.Offset → remoteFile.Read env f plen = ((0, some .eof), f, [])) ∧
    (f.Offset < f.Size → ∀ toRead, toRead = min (plen : Int) (f.Size - f.Offset) →
      (∀ e, env.ReadStreamRange f.Filepath f.Offset toRead = .error e →
          remoteFile.Read env f plen =
            ((0, some e), f, [.fetch f.Filepath f.Offset toRead])) ∧
      (∀ reader, env.ReadStreamRange f.Filepath f.Offset toRead = .ok reader →
        ∀ n err, reader (min toRead.toNat plen) = (n, err) →
          remoteFile.Read env f plen =
            ((n, err),
             (if 0 < n then { f with Offset := f.Offset + (n : Int) } else f),
             [.fetch f.Filepath f.Offset toRead, .closeStream]) ∧
          ((∀ k, (reader k).1 ≤ k) → n ≤ min toRead.toNat plen))) := by
  constructor
  · intro h
    unfold remoteFile.Read
    simp [hdir, h]
  · intro hlt toRead ht
    subst ht
    have hns : ¬ f.Size ≤ f.Offset := not_le.mpr hlt
    constructor
    · intro e he
      unfold remoteFile.Read
      simp only [hdir, Bool.false_eq_true, if_false, if_neg hns]
      rw [he]
    · intro reader hr n err hn
      constructor
      · unfold remoteFile.Read
        simp only [hdir, Bool.false_eq_true, if_false, if_neg hns]
        rw [hr]
        simp only [hn]
      · intro hcontract
        have hb := hcontract (min (min (plen : Int) (f.Size - f.Offset)).toNat plen)
        rw [hn] at hb
        exact hb

/-- Witness for C4: a 10-byte handle at offset 4 read into a 4-byte
buffer fetches `(path, 4, 4)` and reads 3 bytes from `reader3`. -/
theorem read_policy_witness :
    rf10.IsDir = false ∧ rf10.Offset < rf10.Size ∧
    remoteFile.Read baseEnv rf10 4 =
      ((3, none), { rf10 with Offset := 7 }, [.fetch "/f.bin" 4 4, .closeStream]) :=
  ⟨rfl, by decide, by
    have h := (((read_policy baseEnv rf10 4 rfl).2 (by decide) 4 (by decide)).2
      reader3 rfl 3 none (by decide)).1
    rw [h]
    decide⟩

/-- Claim C6: `0 ≤ offset ≤ size` holds after creation with a
nonnegative captured size and is preserved by `Read` (assuming the
stream never reports more bytes than its slice) and by `Seek`. -/
theorem offset_invariant :
    (∀ (path : String) (stat : FileInfo) (rf : remoteFile), 0 ≤ stat.size →
        NewRemoteFile (.ok stat) path = .ok rf →
        0 ≤ rf.Offset ∧ rf.Offset ≤ rf.Size) ∧
    (∀ (env : Env) (f : remoteFile) (plen : Nat),
        (∀ pth off len reader, env.ReadStreamRange pth off len = .ok reader →
            ∀ k, (reader k).1 ≤ k) →
        0 ≤ f.Offset → f.Offset ≤ f.Size →
        0 ≤ (remoteFile.Read env f plen).2.1.Offset ∧
          (remoteFile.Read env f plen).2.1.Offset ≤
            (remoteFile.Read env f plen).2.1.Size) ∧
    (∀ (f : remoteFile) (offset whence : Int),
        0 ≤ f.Offset → f.Offset ≤ f.Size →
        0 ≤ (remoteFile.Seek f offset whence).2.1.Offset ∧
          (remoteFile.Seek f offset whence).2.1.Offset ≤
            (remoteFile.Seek f offset whence).2.1.Size) := by
  refine ⟨?_, ?_, ?_⟩
  · intro path stat rf hsz h
    unfold NewRemoteFile at h
    injection h with h
    subst h
    exact ⟨le_refl 0, hsz⟩
  · intro env f plen hcontract h0 h1
    by_cases hd : f.IsDir = true
    · unfold remoteFile.Read
      rw [if_pos hd]
      exact ⟨h0, h1⟩
    · by_cases he : f.Size ≤ f.Offset
      · unfold remoteFile.Read
        rw [if_neg hd, if_pos he]
        exact ⟨h0, h1⟩
      · cases hs : env.ReadStreamRange f.Filepath f.Offset
            (min (plen : Int) (f.Size - f.Offset)) with
        | error e =>
            unfold remoteFile.Read
            rw [if_neg hd, if_neg he]
            simp only [hs]
            exact ⟨h0, h1⟩
        | ok reader =>
            have hrl : ((min (min (plen : Int) (f.Size - f.Offset)).toNat plen : Nat) : Int) ≤
                f.Size - f.Offset := by
              have h0t : (0 : Int) ≤ min (plen : Int) (f.Size - f.Offset) :=
                le_min (Int.natCast_nonneg plen) (by omega)
              have htn : ((min (plen : Int) (f.Size - f.Offset)).toNat : Int) =
                  min (plen : Int) (f.Size - f.Offset) := Int.toNat_of_nonneg h0t
              have hle : min (min (plen : Int) (f.Size - f.Offset)).toNat plen ≤
                  (min (plen : Int) (f.Size - f.Offset)).toNat := Nat.min_le_left _ _
              calc ((min (min (plen : Int) (f.Size - f.Offset)).toNat plen : Nat) : Int)
                  ≤ ((min (plen : Int) (f.Size - f.Offset)).toNat : Int) :=
                    Int.ofNat_le.mpr hle
                _ = min (plen : Int) (f.Size - f.Offset) := htn
                _ ≤ f.Size - f.Offset := min_le_right _ _
            have hn : ((reader (min (min (plen : Int) (f.Size - f.Offset)).toNat plen)).1 : Int) ≤
                ((min (min (plen : Int) (f.Size - f.Offset)).toNat plen : Nat) : Int) :=
              Int.ofNat_le.mpr (hcontract _ _ _ reader hs _)
            unfold remoteFile.Read
            rw [if_neg hd, if_neg he]
            simp only [hs]
            by_cases hpos :
                0 < (reader (min (min (plen : Int) (f.Size - f.Offset)).toNat plen)).1
            · rw [if_pos hpos]
              refine ⟨?_, ?_⟩
              · show (0 : Int) ≤ f.Offset +
                  ((reader (min (min (plen : Int) (f.Size - f.Offset)).toNat plen)).1 : Int)
                omega
              · show f.Offset +
                  ((reader (min (min (plen : Int) (f.Size - f.Offset)).toNat plen)).1 : Int) ≤
                    f.Size
                omega
            · rw [if_neg hpos]
              exact ⟨h0, h1⟩
  · intro f offset whence h0 h1
    unfold remoteFile.Seek remoteFile.seekTo
    split_ifs <;> simp_all <;> omega

/-- Witness for C6: the invariant is preserved by a concrete `Read`. -/
theorem offset_invariant_witness :
    (0 ≤ rf10.Offset ∧ rf10.Offset ≤ rf10.Size) ∧
    (0 ≤ (remoteFile.Read baseEnv rf10 4).2.1.Offset ∧
      (remoteFile.Read baseEnv rf10 4).2.1.Offset ≤
        (remoteFile.Read baseEnv rf10 4).2.1.Size) :=
  ⟨⟨by decide, by decide⟩, by
    refine offset_invariant.2.1 baseEnv rf10 4 ?_ (by decide) (by decide)
    intro pth off len reader h k
    injection h with h
    subst h
    exact Nat.min_le_left k 3⟩

/-- `flag & 0 = 0` for every Go int flag. -/
theorem intLandZero (z : Int) : Int.land z 0 = 0 := by
  cases z <;> simp [Int.land, Nat.ldiff]

/-- Claim C9: when the local open fails, `OpenFile` falls back to a new
Remote File Handle exactly for the read-intent flags (read-only, that
is zero, or no flag), fails with `os.ErrNotExist` for every other
flag, and never performs any remote mutation. -/
theorem openfile_remote_fallback (p : PikpakProxy) (env : Env) (name : String)
    (flag : Int) (perm : Nat) (e0 : GoErr)
    (hfail : env.osOpenFile (p.LocalFilePath name) flag perm = .error e0) :
    ((Int.land flag O_RDONLY ≠ 0 ∨ flag = 0) ↔ (flag = O_RDONLY ∨ flag = 0)) ∧
    (flag = 0 →
        (∀ stat, env.remoteStat name = .ok stat →
            p.OpenFile env name flag perm =
              (.ok (.remote { Filepath := name, LocalCachePath := "", Offset := 0,
                              Size := stat.size, IsDir := stat.isDir, Info := stat }),
               [.remoteStatCall name])) ∧
        (∀ e, env.remoteStat name = .error e →
            p.OpenFile env name flag perm = (.error e, [.remoteStatCall name]))) ∧
    (flag ≠ 0 → p.OpenFile env name flag perm = (.error .errNotExist, [])) ∧
    (∀ ev ∈ (p.OpenFile env name flag perm).2, ev = .remoteStatCall name) := by
  refine ⟨?_, ?_, ?_, ?_⟩
  · simp [O_RDONLY, intLandZero]
  · intro h0
    subst h0
    constructor
    · intro stat hs
      unfold PikpakProxy.OpenFile
      simp only [hfail]
      simp [intLandZero, NewRemoteFile, hs]
    · intro e hs
      unfold PikpakProxy.OpenFile
      simp only [hfail]
      simp [intLandZero, NewRemoteFile, hs]
  · intro hne
    unfold PikpakProxy.OpenFile
    simp only [hfail]
    simp [intLandZero, O_RDONLY, hne]
  · unfold PikpakProxy.OpenFile
    simp only [hfail]
    by_cases h0 : flag = 0
    · subst h0
      cases hs : env.remoteStat name <;>
        simp [intLandZero, NewRemoteFile, hs]
    · simp [intLandZero, O_RDONLY, h0]

/-- Witness for C9: local open fails, flag 0, remote stat succeeds — a
remote handle is returned. -/
theorem openfile_remote_fallback_witness :
    envRemoteStat.osOpenFile (proxy0.LocalFilePath "/r.txt") 0 420 =
      .error .errNotExist ∧
    proxy0.OpenFile envRemoteStat "/r.txt" 0 420 =
      (.ok (.remote { Filepath := "/r.txt", LocalCachePath := "", Offset := 0,
                      Size := 5, IsDir := false, Info := fiB }),
       [.remoteStatCall "/r.txt"]) :=
  ⟨rfl, by
    have h := ((openfile_remote_fallback proxy0 envRemoteStat "/r.txt" 0 420
      .errNotExist rfl).2.1 rfl).1 fiB rfl
    rw [h]
    rfl⟩


/-- `splitOnSlash` never returns the empty list of segments. -/
theorem splitOnSlash_ne_nil (s : List Char) : splitOnSlash s ≠ [] := by
  induction s with
  | nil => simp [splitOnSlash]
  | cons c rest ih =>
      unfold splitOnSlash
      by_cases hc : c = '/'
      · simp [hc]
      · simp only [if_neg hc]
        cases h : splitOnSlash rest with
        | nil => simp
        | cons s ss => simp

/-- A leading slash contributes one empty segment. -/
theorem splitOnSlash_cons_slash (t : List Char) :
    splitOnSlash ('/' :: t) = [] :: splitOnSlash t := by
  simp [splitOnSlash]

/-- The cons equation of `splitOnSlash` for a non-slash head. -/
theorem splitOnSlash_cons_ne (c : Char) (t : List Char) (hc : ¬ c = '/')
    (s : List Char) (ss : List (List Char)) (h : splitOnSlash t = s :: ss) :
    splitOnSlash (c :: t) = (c :: s) :: ss := by
  show (if c = '/' then [] :: splitOnSlash t
    else match splitOnSlash t with
    | [] => [[c]]
    | s :: ss => (c :: s) :: ss) = (c :: s) :: ss
  rw [if_neg hc, h]

/-- Splitting distributes over concatenation at a slash. -/
theorem splitOnSlash_append (a b : List Char) :
    splitOnSlash (a ++ '/' :: b) = splitOnSlash a ++ splitOnSlash b := by
  induction a with
  | nil => simp [splitOnSlash]
  | cons c a ih =>
      by_cases hc : c = '/'
      · subst hc
        simp only [List.cons_append, splitOnSlash_cons_slash, ih]
      · cases h : splitOnSlash a with
        | nil => exact absurd h (splitOnSlash_ne_nil a)
        | cons s ss =>
            have h2 : splitOnSlash (a ++ '/' :: b) = s :: (ss ++ splitOnSlash b) := by
              rw [ih, h]
              rfl
            rw [List.cons_append, splitOnSlash_cons_ne c _ hc _ _ h2,
              splitOnSlash_cons_ne c a hc _ _ h]
            rfl

/-- Joining the segments of a string restores the string. -/
theorem joinSegs_splitOnSlash (s : List Char) : joinSegs (splitOnSlash s) = s := by
  induction s with
  | nil => rfl
  | cons c rest ih =>
      by_cases hc : c = '/'
      · subst hc
        rw [splitOnSlash_cons_slash]
        cases h : splitOnSlash rest with
        | nil => exact absurd h (splitOnSlash_ne_nil rest)
        | cons s ss =>
            show [] ++ '/' :: joinSegs (s :: ss) = '/' :: rest
            rw [← h, ih]
            rfl
      · cases h : splitOnSlash rest with
        | nil => exact absurd h (splitOnSlash_ne_nil rest)
        | cons s ss =>
            rw [splitOnSlash_cons_ne c rest hc s ss h]
            rw [h] at ih
            cases ss with
            | nil =>
                show c :: s = c :: rest
                rw [show joinSegs [s] = s from rfl] at ih
                rw [ih]
            | cons t ts =>
                show (c :: s) ++ '/' :: joinSegs (t :: ts) = c :: rest
                rw [show joinSegs (s :: t :: ts) = s ++ '/' :: joinSegs (t :: ts) from rfl] at ih
                rw [← ih]
                rfl

/-- Segments produced by `splitOnSlash` never contain a slash. -/
theorem splitOnSlash_no_slash (s : List Char) :
    ∀ seg ∈ splitOnSlash s, '/' ∉ seg := by
  induction s with
  | nil =>
      intro seg hseg
      simp only [splitOnSlash, List.mem_singleton] at hseg
      simp [hseg]
  | cons c rest ih =>
      intro seg hseg
      by_cases hc : c = '/'
      · subst hc
        rw [splitOnSlash_cons_slash] at hseg
        rcases List.mem_cons.1 hseg with h | h
        · simp [h]
        · exact ih seg h
      · cases h : splitOnSlash rest with
        | nil => exact absurd h (splitOnSlash_ne_nil rest)
        | cons s ss =>
            rw [splitOnSlash_cons_ne c rest hc s ss h] at hseg
            rcases List.mem_cons.1 hseg with hx | hx
            · subst hx
              intro hmem
              rcases List.mem_cons.1 hmem with h1 | h1
              · exact hc h1.symm
              · exact ih s (h ▸ List.mem_cons_self s ss) h1
            · exact ih seg (h ▸ List.mem_cons_of_mem s hx)

/-- A slash-free string is a single segment. -/
theorem splitOnSlash_of_no_slash (s : List Char) (h : '/' ∉ s) :
    splitOnSlash s = [s] := by
  induction s with
  | nil => rfl
  | cons c rest ih =>
      have hc : ¬ c = '/' := fun he => h (he ▸ List.mem_cons_self c rest)
      have hrest : '/' ∉ rest := fun hm => h (List.mem_cons_of_mem c hm)
      exact splitOnSlash_cons_ne c rest hc rest [] (ih hrest)

/-- Splitting the join of nonempty slash-free segments restores them. -/
theorem splitOnSlash_joinSegs :
    ∀ (L : List (List Char)), L ≠ [] → (∀ seg ∈ L, '/' ∉ seg) →
      splitOnSlash (joinSegs L) = L := by
  intro L
  induction L with
  | nil => intro h; exact absurd rfl h
  | cons s ss ih =>
      intro _ h1
      cases ss with
      | nil =>
          show splitOnSlash (joinSegs [s]) = [s]
          rw [show joinSegs [s] = s from rfl,
            splitOnSlash_of_no_slash s (h1 s (by simp))]
      | cons t ts =>
          show splitOnSlash (joinSegs (s :: t :: ts)) = s :: t :: ts
          rw [show joinSegs (s :: t :: ts) = s ++ '/' :: joinSegs (t :: ts) from rfl,
            splitOnSlash_append, splitOnSlash_of_no_slash s (h1 s (by simp)),
            ih (by simp) (fun seg hseg => h1 seg (List.mem_cons_of_mem s hseg))]
          rfl

/-- The rooted clean stack holds only clean, slash-free segments. -/
theorem foldl_rootedStep_good :
    ∀ (segs acc : List (List Char)),
      (∀ x ∈ acc, goodSeg x ∧ '/' ∉ x) → (∀ s ∈ segs, '/' ∉ s) →
      ∀ x ∈ List.foldl rootedStep acc segs, goodSeg x ∧ '/' ∉ x := by
  intro segs
  induction segs with
  | nil => intro acc hacc _ x hx; exact hacc x hx
  | cons seg rest ih =>
      intro acc hacc hns
      rw [List.foldl_cons]
      apply ih
      · intro x hx
        unfold rootedStep at hx
        by_cases h1 : seg = [] ∨ seg = ['.']
        · rw [if_pos h1] at hx
          exact hacc x hx
        · rw [if_neg h1] at hx
          by_cases h2 : seg = ['.', '.']
          · rw [if_pos h2] at hx
            exact hacc x (List.dropLast_subset _ hx)
          · rw [if_neg h2] at hx
            rcases List.mem_append.1 hx with hx | hx
            · exact hacc x hx
            · have hxe : x = seg := by simpa using hx
              subst hxe
              push_neg at h1
              exact ⟨⟨h1.1, h1.2, h2⟩, hns x (List.mem_cons_self x rest)⟩
      · intro s hs
        exact hns s (List.mem_cons_of_mem _ hs)

/-- Clean segments are simply appended by the rooted clean stack. -/
theorem foldl_rootedStep_of_good :
    ∀ (segs acc : List (List Char)), (∀ s ∈ segs, goodSeg s) →
      List.foldl rootedStep acc segs = acc ++ segs := by
  intro segs
  induction segs with
  | nil => intro acc _; simp
  | cons seg rest ih =>
      intro acc hg
      rw [List.foldl_cons]
      have h := hg seg (List.mem_cons_self seg rest)
      have hstep : rootedStep acc seg = acc ++ [seg] := by
        unfold rootedStep
        rw [if_neg (by push_neg; exact ⟨h.1, h.2.1⟩), if_neg h.2.2]
      rw [hstep, ih (acc ++ [seg]) (fun s hs => hg s (List.mem_cons_of_mem _ hs))]
      simp

/-- Claim C10: for every input path beginning with a slash, the derived
local path is the Cache Root joined with the cleaned path's
leading-slash-stripped remainder, and it always stays inside the Cache
Root tree: its segment sequence extends the root's segments by clean
segments only (no `..` or `.` can escape), and the root path maps to
the Cache Root itself. -/
theorem localfilepath_contained (root name : List Char)
    (hr : root.head? = some '/')
    (hg : ∀ seg ∈ (splitOnSlash root).drop 1, goodSeg seg)
    (hn : name.head? = some '/') :
    ((PikpakProxy.LocalFilePath ⟨String.mk root⟩ (String.mk name)).data =
        localFilePath root name) ∧
    (localFilePath root name =
        goFilepathJoin root (goTrimPrefixOf (goPathClean name) ['/'])) ∧
    (∃ extra, (∀ seg ∈ extra, goodSeg seg) ∧
        splitOnSlash (localFilePath root name) = splitOnSlash root ++ extra) ∧
    (name = ['/'] → localFilePath root name = root) := by
  obtain ⟨r', rfl⟩ : ∃ r', root = '/' :: r' := by
    cases root with
    | nil => simp at hr
    | cons c cs =>
        simp only [List.head?_cons, Option.some.injEq] at hr
        exact ⟨cs, by rw [hr]⟩
  obtain ⟨n', rfl⟩ : ∃ n', name = '/' :: n' := by
    cases name with
    | nil => simp at hn
    | cons c cs =>
        simp only [List.head?_cons, Option.some.injEq] at hn
        exact ⟨cs, by rw [hn]⟩
  have hg' : ∀ seg ∈ splitOnSlash r', goodSeg seg := by
    intro seg hseg
    apply hg
    rw [splitOnSlash_cons_slash]
    simpa using hseg
  have hstgood : ∀ x ∈ List.foldl rootedStep [] (splitOnSlash ('/' :: n')),
      goodSeg x ∧ '/' ∉ x :=
    foldl_rootedStep_good (splitOnSlash ('/' :: n')) [] (by simp)
      (splitOnSlash_no_slash _)
  have hclean : goPathClean ('/' :: n') =
      '/' :: joinSegs (List.foldl rootedStep [] (splitOnSlash ('/' :: n'))) := by
    unfold goPathClean
    rw [if_neg (by simp), if_pos (by simp)]
  have htrim : ∀ t : List Char, goTrimPrefixOf ('/' :: t) ['/'] = t := by
    intro t
    have hp : List.isPrefixOf ['/'] ('/' :: t) = true := by
      simp [List.isPrefixOf]
    unfold goTrimPrefixOf
    rw [if_pos hp]
    simp
  have hfold : ∀ st : List (List Char), (∀ x ∈ st, goodSeg x ∧ '/' ∉ x) →
      List.foldl rootedStep (splitOnSlash r') (splitOnSlash (joinSegs st)) =
        splitOnSlash r' ++ st := by
    intro st hstg
    cases st with
    | nil =>
        have h1 : rootedStep (splitOnSlash r') [] = splitOnSlash r' := by
          unfold rootedStep
          rw [if_pos (Or.inl rfl)]
        show List.foldl rootedStep (splitOnSlash r')
            (splitOnSlash (joinSegs [])) = splitOnSlash r' ++ []
        rw [show joinSegs ([] : List (List Char)) = [] from rfl,
          show splitOnSlash ([] : List Char) = [[]] from rfl,
          List.foldl_cons, h1]
        simp
    | cons s0 ss0 =>
        rw [splitOnSlash_joinSegs (s0 :: ss0) (by simp)
            (fun seg hseg => (hstg seg hseg).2),
          foldl_rootedStep_of_good (s0 :: ss0) _ (fun seg hseg => (hstg seg hseg).1)]
  have hne : ('/' :: r') ≠ ([] : List Char) := by simp
  have hmain : localFilePath ('/' :: r') ('/' :: n') =
      '/' :: joinSegs (splitOnSlash r' ++
        List.foldl rootedStep [] (splitOnSlash ('/' :: n'))) := by
    unfold localFilePath goFilepathJoin
    rw [hclean, htrim, if_pos hne]
    unfold goPathClean
    rw [if_neg (by simp), if_pos (by simp)]
    rw [show ('/' :: r') ++ '/' :: joinSegs
          (List.foldl rootedStep [] (splitOnSlash ('/' :: n'))) =
        '/' :: (r' ++ '/' :: joinSegs
          (List.foldl rootedStep [] (splitOnSlash ('/' :: n')))) from rfl,
      splitOnSlash_cons_slash, splitOnSlash_append, List.foldl_cons,
      show rootedStep [] [] = [] from by unfold rootedStep; simp,
      List.foldl_append, foldl_rootedStep_of_good (splitOnSlash r') [] hg',
      show ([] : List (List Char)) ++ splitOnSlash r' = splitOnSlash r' from by simp,
      hfold _ hstgood]
  refine ⟨rfl, rfl,
    ⟨List.foldl rootedStep [] (splitOnSlash ('/' :: n')),
      fun seg hseg => (hstgood seg hseg).1, ?_⟩, ?_⟩
  · rw [hmain, splitOnSlash_cons_slash,
      splitOnSlash_joinSegs (splitOnSlash r' ++
          List.foldl rootedStep [] (splitOnSlash ('/' :: n')))
        (fun habs => splitOnSlash_ne_nil r' (List.append_eq_nil.1 habs).1)
        (fun seg hseg => by
          rcases List.mem_append.1 hseg with h | h
          · exact splitOnSlash_no_slash r' seg h
          · exact (hstgood seg h).2),
      splitOnSlash_cons_slash]
    simp [splitOnSlash_cons_slash]
  · intro hname
    have hn' : n' = [] := by simpa using hname
    subst hn'
    have hST : List.foldl rootedStep [] (splitOnSlash ['/']) = [] := rfl
    rw [hmain, hST, List.append_nil, joinSegs_splitOnSlash]

/-- Witness for C10: the traversal attempt `"/../etc/passwd"` stays
inside `"/cache"`. -/
theorem localfilepath_contained_witness :
    "/cache".data.head? = some '/' ∧
    "/../etc/passwd".data.head? = some '/' ∧
    localFilePath "/cache".data "/../etc/passwd".data = "/cache/etc/passwd".data ∧
    (∃ extra, (∀ seg ∈ extra, goodSeg seg) ∧
      splitOnSlash (localFilePath "/cache".data "/../etc/passwd".data) =
        splitOnSlash "/cache".data ++ extra) :=
  ⟨by decide, by decide, by decide,
    (localfilepath_contained "/cache".data "/../etc/passwd".data
      (by decide) (by decide) (by decide)).2.2.1⟩
